import Mathlib

/-!
# SafeCommit — shallow embedding and verification

This file embeds the core of the SafeCommit repository (a staged-diff
review pipeline: prompt builders, a byte-safe diff truncator, a JSON
schema validator, a validate/repair review client, a summary builder,
and an HTTP request handler) as executable Lean definitions, and proves
or refutes the specified properties about them.

Modelling conventions:
* JSON values are the inductive `Json` below; JSON numbers are `Rat`
  (zod's `.int()` check becomes `den = 1`).
* JavaScript strings are Lean `String`s; where raw UTF-8 bytes matter
  (the truncator) a string is its list of Unicode scalar values
  (`List Nat`) and bytes are `List Nat`.
* JavaScript object literals are association lists; property access is
  `List.lookup`, and an absent property (JS `undefined`) is `none`,
  which is falsy.
* The Gemini endpoint (`model.generateContent`) is an oracle parameter
  `gen : Nat → String → Except String String`: call number and prompt
  in, timeout error or raw response text out.  `JSON.parse` is likewise
  an oracle parameter `jsonParse : String → Option Json`.
-/

set_option maxHeartbeats 1600000

namespace SafeCommit

/-! ## JSON value model -/

/-- A decoded JSON value.  Numbers are rationals: JSON number literals
are decimal and zod's `z.number().int()` test is "denominator 1". -/
inductive Json where
  | null : Json
  | bool (b : Bool) : Json
  | num (n : Rat) : Json
  | str (s : String) : Json
  | arr (elems : List Json) : Json
  | obj (fields : List (String × Json)) : Json

/-- JS property access `o[k]` on an object literal: first binding wins,
absence is `undefined` (`none`). -/
def getField (fields : List (String × Json)) (k : String) : Option Json :=
  fields.lookup k

/-! ## Severity order (hook script, `pre-commit.js`) -/

/-- The `order` table of `severityAtOrAbove` in the pre-commit hook:
`{ nit: 0, suggestion: 1, warning: 2, critical: 3 }`. -/
def severityOrder : List (String × Nat) :=
  [("nit", 0), ("suggestion", 1), ("warning", 2), ("critical", 3)]

/-- `severityAtOrAbove(sev, threshold)` from the hook:
`order[sev] >= order[threshold]`.  In JS a `>=` comparison involving
`undefined` is false, so a missing key on either side yields `false`. -/
def severityAtOrAbove (sev threshold : String) : Bool :=
  match severityOrder.lookup sev, severityOrder.lookup threshold with
  | some a, some b => a ≥ b
  | _, _ => false

/-- The hook's commit gate:
`findings.some((f) => severityAtOrAbove(f.severity, failOnSeverity))`;
when true, `main` logs and exits with status 1, blocking the commit.
Only each finding's `severity` property is read, so a finding is
represented by that string. -/
def hookShouldFail (severities : List String) (failOnSeverity : String) : Bool :=
  severities.any fun sev => severityAtOrAbove sev failOnSeverity

/-! ## Finding values and the summary builder -/

/-- A validated finding, after `findingSchema` parsing.  `severity` is
kept as raw text: the summary builder is written defensively against
non-canonical severities. -/
structure Finding where
  file : String
  lineStart : Int
  lineEnd : Int
  severity : String
  title : String
  message : String
  rationale : String
  patch : Option String
deriving Repr, DecidableEq

/-- `bySeverity[k] = (bySeverity[k] || 0) + 1` on a JS object: update
the first binding for `k` in place, or append `(k, 1)` if absent. -/
def incrKey (m : List (String × Nat)) (k : String) : List (String × Nat) :=
  match m with
  | [] => [(k, 1)]
  | (k2, v) :: rest => if k2 = k then (k2, v + 1) :: rest else (k2, v) :: incrKey rest k

/-- The summary record returned by `buildSummary`. -/
structure Summary where
  totalFindings : Nat
  bySeverity : List (String × Nat)
  durationMs : Nat
deriving Repr, DecidableEq

/-- `buildSummary(findings, durationMs)` from `utils/summary.ts`:
initialize the four canonical counters to 0, then bump the counter of
each finding's severity (appending a fresh key for a non-canonical
severity, as the JS `|| 0` fallback does). -/
def buildSummary (findings : List Finding) (durationMs : Nat) : Summary :=
  let init : List (String × Nat) :=
    [("nit", 0), ("suggestion", 0), ("warning", 0), ("critical", 0)]
  { totalFindings := findings.length
    bySeverity := findings.foldl (fun m f => incrKey m f.severity) init
    durationMs := durationMs }

/-- Count stored under key `k`, reading an absent key as 0. -/
def countOf (m : List (String × Nat)) (k : String) : Nat :=
  (m.lookup k).getD 0

/-- Sum of the `bySeverity` counts over the four canonical severities. -/
def canonicalSum (m : List (String × Nat)) : Nat :=
  countOf m "nit" + countOf m "suggestion" + countOf m "warning" + countOf m "critical"

/-- The four canonical severity names. -/
def canonicalSeverities : List String := ["nit", "suggestion", "warning", "critical"]

/-! ## Schema validators (`schema.ts`, zod) -/

/-- `z.string().optional()`: absent (`undefined`) or a string. -/
def parseOptStr : Option Json → Option (Option String)
  | none => some none
  | some (.str s) => some (some s)
  | _ => none

/-- `findingSchema.safeParse` from `schema.ts`: an object whose `file`,
`title`, `message`, `rationale` are non-empty strings, `lineStart` and
`lineEnd` are integers ≥ 1, `severity` is one of the four canonical
values, `patch` is an optional string, refined by
`lineEnd >= lineStart`.  Unknown keys are stripped, not rejected. -/
def parseFinding (j : Json) : Option Finding :=
  match j with
  | .obj fields =>
    match getField fields "file", getField fields "lineStart", getField fields "lineEnd",
        getField fields "severity", getField fields "title", getField fields "message",
        getField fields "rationale", parseOptStr (getField fields "patch") with
    | some (.str file), some (.num ls), some (.num le), some (.str sev), some (.str title),
      some (.str message), some (.str rationale), some patch =>
      if 1 ≤ file.length ∧ ls.den = 1 ∧ 1 ≤ ls ∧ le.den = 1 ∧ 1 ≤ le ∧
          sev ∈ canonicalSeverities ∧ 1 ≤ title.length ∧ 1 ≤ message.length ∧
          1 ≤ rationale.length ∧ ls ≤ le then
        some ⟨file, ls.num, le.num, sev, title, message, rationale, patch⟩
      else
        none
    | _, _, _, _, _, _, _, _ => none
  | _ => none

/-- `findingsSchema = z.array(findingSchema)`. -/
def parseFindings (j : Json) : Option (List Finding) :=
  match j with
  | .arr xs => xs.mapM parseFinding
  | _ => none

/-- `z.number().int().nonnegative()` on an optional field. -/
def nonnegIntNum : Option Json → Bool
  | some (.num n) => n.den == 1 && decide (0 ≤ n)
  | _ => false

/-- `summarySchema.safeParse` as a boolean check: `totalFindings` and
`durationMs` are non-negative integers and `bySeverity` is a record of
non-negative integers (any string keys). -/
def summarySchemaCheck (j : Json) : Bool :=
  match j with
  | .obj fields =>
    nonnegIntNum (getField fields "totalFindings") &&
    (match getField fields "bySeverity" with
     | some (.obj entries) =>
       entries.all fun kv =>
         match kv.2 with
         | .num n => n.den == 1 && decide (0 ≤ n)
         | _ => false
     | _ => false) &&
    nonnegIntNum (getField fields "durationMs")
  | _ => false

/-- `reviewRequestSchema`'s parsed data. -/
structure ReviewRequest where
  repoId : String
  diff : String
  files : List String
deriving Repr, DecidableEq

/-- A non-empty-string array element (`z.array(z.string().min(1))`). -/
def parseStr1 (j : Json) : Option String :=
  match j with
  | .str s => if 1 ≤ s.length then some s else none
  | _ => none

/-- `reviewRequestSchema.safeParse` from `schema.ts`: `repoId` and
`diff` non-empty strings, `files` an array of non-empty strings. -/
def parseReviewRequest (j : Json) : Option ReviewRequest :=
  match j with
  | .obj fields =>
    match getField fields "repoId", getField fields "diff", getField fields "files" with
    | some (.str repoId), some (.str diff), some (.arr fs) =>
      if 1 ≤ repoId.length ∧ 1 ≤ diff.length then
        (fs.mapM parseStr1).map fun files => ⟨repoId, diff, files⟩
      else
        none
    | _, _, _ => none
  | _ => none

/-! ## Prompt builders (`prompt.ts`) -/

/-- JS `Array.prototype.join(sep)`. -/
def joinWith (sep : String) : List String → String
  | [] => ""
  | [s] => s
  | s :: rest => s ++ sep ++ joinWith sep rest

/-- `buildSystemPrompt()` from `prompt.ts`. -/
def buildSystemPrompt : String :=
  joinWith " "
    [ "You are a careful code reviewer.",
      "Review only the staged diff provided.",
      "Return ONLY valid JSON matching the schema. No markdown, no commentary.",
      "If no issues are found, return findings as an empty array and a correct summary.",
      "Severities must be one of: nit, suggestion, warning, critical.",
      "Map each finding to an existing file path and line range in the file.",
      "Prefer actionable guidance and minimal patches.",
      "Make the message and rationale detailed and specific, including impact and concrete fix guidance.",
      "Be conservative; avoid nitpicks unless clearly beneficial.",
      "Summary counts must exactly match the findings array." ]

/-- The `schemaHint` literal of `buildUserPrompt`: the exact
`JSON.stringify(example, null, 2)` output. -/
def schemaHint : String :=
  "\x7b\n  \"findings\": [\n    \x7b\n      \"file\": \"string\",\n      \"lineStart\": 1,\n      \"lineEnd\": 1,\n      \"severity\": \"warning\",\n      \"title\": \"string\",\n      \"message\": \"string\",\n      \"rationale\": \"string\",\n      \"patch\": \"string\"\n    \x7d\n  ],\n  \"summary\": \x7b\n    \"totalFindings\": 1,\n    \"bySeverity\": \x7b\n      \"nit\": 0,\n      \"suggestion\": 0,\n      \"warning\": 1,\n      \"critical\": 0\n    \x7d,\n    \"durationMs\": 1\n  \x7d\n\x7d"

/-- `buildUserPrompt(diff, files)` from `prompt.ts`. -/
def buildUserPrompt (diff : String) (files : List String) : String :=
  joinWith "\n\n"
    [ "You must review ONLY the staged diff below.",
      "File list:",
      joinWith "\n" files,
      "Staged diff:",
      diff,
      "Return ONLY valid JSON matching this schema:",
      schemaHint ]

/-- `buildRepairPrompt(badOutput)` from `prompt.ts`. -/
def buildRepairPrompt (badOutput : String) : String :=
  joinWith "\n\n"
    [ "The previous response was invalid.",
      "Return ONLY valid JSON matching the required schema. No markdown, no commentary.",
      "Here is the invalid output:",
      badOutput ]

/-! ## Review client (`GeminiProvider.ts`)

`model.generateContent` is abstracted as an oracle
`gen : Nat → String → Except String String` (call index and prompt in;
`.error` models a thrown timeout/connectivity error from `withTimeout`,
`.ok` the raw response text).  `JSON.parse` is an oracle
`jsonParse : String → Option Json` (`none` models a parse exception). -/

/-- `GeminiProvider.tryParse` composed with the extraction the caller
performs: `safeParseJson` (trim then `JSON.parse`), then
`reviewResponseSchema.safeParse` (findings array and summary object
both required), returning the findings on success.  The validated
summary is discarded. -/
def tryParse (jsonParse : String → Option Json) (text : String) : Option (List Finding) :=
  match jsonParse text.trim with
  | none => none
  | some j =>
    match j with
    | .obj fields =>
      match getField fields "findings", getField fields "summary" with
      | some fv, some sv =>
        match parseFindings fv with
        | some findings => if summarySchemaCheck sv then some findings else none
        | none => none
      | _, _ => none
    | _ => none

/-- Result of one `reviewDiff` call: the value returned or error
thrown, plus every prompt sent to the model, in order. -/
structure ReviewRun where
  result : Except String (List Finding)
  promptsSent : List String
deriving Repr

/-- `GeminiProvider.reviewDiff(diff, files)`: send the user prompt; on
validation failure send one repair prompt embedding the first raw
response; on a second validation failure throw
"Model returned invalid JSON after repair attempt". -/
def reviewDiff (jsonParse : String → Option Json)
    (gen : Nat → String → Except String String)
    (diff : String) (files : List String) : ReviewRun :=
  let userPrompt := buildUserPrompt diff files
  match gen 0 userPrompt with
  | .error e => ⟨.error e, [userPrompt]⟩
  | .ok firstText =>
    match tryParse jsonParse firstText with
    | some findings => ⟨.ok findings, [userPrompt]⟩
    | none =>
      let repairPrompt := buildRepairPrompt firstText
      match gen 1 repairPrompt with
      | .error e => ⟨.error e, [userPrompt, repairPrompt]⟩
      | .ok repairText =>
        match tryParse jsonParse repairText with
        | some findings => ⟨.ok findings, [userPrompt, repairPrompt]⟩
        | none =>
          ⟨.error "Model returned invalid JSON after repair attempt",
            [userPrompt, repairPrompt]⟩

/-! ## Configuration (`config.ts`) -/

/-- A value stored on the `config` object literal. -/
inductive ConfigVal where
  | num (n : Int) : ConfigVal
  | str (s : String) : ConfigVal
deriving Repr, DecidableEq

/-- `parseIntEnv(value, fallback)` from `config.ts`, with JS
`Number.parseInt` abstracted as `parseIntStr` (`none` = `NaN`). -/
def parseIntEnv (parseIntStr : String → Option Int)
    (value : Option String) (fallback : Int) : Int :=
  match value with
  | some s => (parseIntStr s).getD fallback
  | none => fallback

/-- The `config` object built in `config.ts` from the environment
(`env : String → Option String` is `process.env`).  Exactly four
properties are defined: `port`, `geminiApiKey`, `defaultMaxDiffBytes`,
`llmTimeoutMs`. -/
def configFromEnv (parseIntStr : String → Option Int)
    (env : String → Option String) : List (String × ConfigVal) :=
  [ ("port", .num (parseIntEnv parseIntStr (env "PORT") 8787)),
    ("geminiApiKey", .str ((env "GEMINI_API_KEY").getD "")),
    ("defaultMaxDiffBytes", .num (parseIntEnv parseIntStr (env "DEFAULT_MAX_DIFF_BYTES") 200000)),
    ("llmTimeoutMs", .num (parseIntEnv parseIntStr (env "LLM_TIMEOUT_MS") 60000)) ]

/-- JS truthiness of a property-access result (`undefined` is falsy; a
number is truthy unless 0; a string is truthy unless empty). -/
def jsTruthy : Option ConfigVal → Bool
  | none => false
  | some (.num n) => n != 0
  | some (.str s) => s.length != 0

/-- The guard `if (config.debugPrompts)` in `GeminiProvider.reviewDiff`
that decides whether the system and user prompts are echoed to the
operator logs. -/
def debugPromptsEnabled (cfg : List (String × ConfigVal)) : Bool :=
  jsTruthy (cfg.lookup "debugPrompts")

/-! ## UTF-8 byte layer and the diff truncator

`Buffer.byteLength(s, "utf8")`, `Buffer.from(s, "utf8")` and
`buf.toString("utf8")` are modelled over a string's Unicode scalar
values: `utf8Encode` is the UTF-8 encoding and `utf8DecodeReplace` is
the WHATWG / Node decoder that replaces each maximal invalid subpart
(in particular a truncated trailing sequence) with one U+FFFD. -/

/-- A Unicode scalar value: a codepoint that is not a surrogate. -/
def ValidScalar (c : Nat) : Prop := c < 0xD800 ∨ (0xE000 ≤ c ∧ c < 0x110000)

instance (c : Nat) : Decidable (ValidScalar c) := by
  unfold ValidScalar
  infer_instance

/-- UTF-8 encoding of one Unicode scalar value. -/
def utf8EncodeChar (c : Nat) : List Nat :=
  if c < 0x80 then [c]
  else if c < 0x800 then [0xC0 + c / 0x40, 0x80 + c % 0x40]
  else if c < 0x10000 then
    [0xE0 + c / 0x1000, 0x80 + (c / 0x40) % 0x40, 0x80 + c % 0x40]
  else
    [0xF0 + c / 0x40000, 0x80 + (c / 0x1000) % 0x40, 0x80 + (c / 0x40) % 0x40,
      0x80 + c % 0x40]

/-- UTF-8 encoding of a whole string (as scalar values). -/
def utf8Encode (s : List Nat) : List Nat := (s.map utf8EncodeChar).flatten

/-- A UTF-8 continuation byte. -/
def cont (b : Nat) : Bool := decide (0x80 ≤ b ∧ b ≤ 0xBF)

/-- Admissible first continuation byte after a three-byte lead `b`
(E0 tightens the lower bound, ED excludes surrogates). -/
def cont3First (b c1 : Nat) : Bool :=
  if b = 0xE0 then decide (0xA0 ≤ c1 ∧ c1 ≤ 0xBF)
  else if b = 0xED then decide (0x80 ≤ c1 ∧ c1 ≤ 0x9F)
  else cont c1

/-- Admissible first continuation byte after a four-byte lead `b`
(F0 tightens the lower bound, F4 caps at U+10FFFF). -/
def cont4First (b c1 : Nat) : Bool :=
  if b = 0xF0 then decide (0x90 ≤ c1 ∧ c1 ≤ 0xBF)
  else if b = 0xF4 then decide (0x80 ≤ c1 ∧ c1 ≤ 0x8F)
  else cont c1

/-- WHATWG UTF-8 decode with replacement, as performed by Node's
`buf.toString("utf8")`: each maximal invalid or incomplete subpart
becomes one U+FFFD. -/
def utf8DecodeReplace : List Nat → List Nat
  | [] => []
  | b :: rest =>
    if b < 0x80 then b :: utf8DecodeReplace rest
    else if 0xC2 ≤ b ∧ b ≤ 0xDF then
      match rest with
      | [] => [0xFFFD]
      | c1 :: rest2 =>
        if cont c1 then ((b - 0xC0) * 0x40 + (c1 - 0x80)) :: utf8DecodeReplace rest2
        else 0xFFFD :: utf8DecodeReplace (c1 :: rest2)
    else if 0xE0 ≤ b ∧ b ≤ 0xEF then
      match rest with
      | [] => [0xFFFD]
      | c1 :: rest2 =>
        if cont3First b c1 then
          match rest2 with
          | [] => [0xFFFD]
          | c2 :: rest3 =>
            if cont c2 then
              ((b - 0xE0) * 0x1000 + (c1 - 0x80) * 0x40 + (c2 - 0x80)) ::
                utf8DecodeReplace rest3
            else 0xFFFD :: utf8DecodeReplace (c2 :: rest3)
        else 0xFFFD :: utf8DecodeReplace (c1 :: rest2)
    else if 0xF0 ≤ b ∧ b ≤ 0xF4 then
      match rest with
      | [] => [0xFFFD]
      | c1 :: rest2 =>
        if cont4First b c1 then
          match rest2 with
          | [] => [0xFFFD]
          | c2 :: rest3 =>
            if cont c2 then
              match rest3 with
              | [] => [0xFFFD]
              | c3 :: rest4 =>
                if cont c3 then
                  ((b - 0xF0) * 0x40000 + (c1 - 0x80) * 0x1000 + (c2 - 0x80) * 0x40 +
                    (c3 - 0x80)) :: utf8DecodeReplace rest4
                else 0xFFFD :: utf8DecodeReplace (c3 :: rest4)
            else 0xFFFD :: utf8DecodeReplace (c2 :: rest3)
        else 0xFFFD :: utf8DecodeReplace (c1 :: rest2)
    else 0xFFFD :: utf8DecodeReplace rest

/-- `truncateByBytes(input, maxBytes)` from `index.ts` (the hook's copy
in `pre-commit.js` is byte-for-byte the same computation): if the UTF-8
byte length fits, return the input unchanged; otherwise decode the
first `maxBytes` raw bytes. -/
def truncateByBytes (input : List Nat) (maxBytes : Nat) : List Nat :=
  let bytes := (utf8Encode input).length
  if bytes ≤ maxBytes then input
  else utf8DecodeReplace ((utf8Encode input).take maxBytes)

/-- `truncateByBytes` on a Lean `String` (scalar values are the
string's characters). -/
def truncateByBytesStr (s : String) (maxBytes : Nat) : String :=
  ⟨(truncateByBytes (s.data.map Char.toNat) maxBytes).map Char.ofNat⟩

/-! ## HTTP endpoint handler (`index.ts`, `POST /v1/review/diff`)

The provider is abstracted by `providerFn`, the function the handler
awaits (`.error` models a thrown/rejected promise, `.ok` the
`review.findings` value, re-validated by the handler); `requestId` and
the measured `durationMs` are parameters. -/

/-- Serialization of a validated finding back to JSON
(an absent `patch` is omitted, as `JSON.stringify` drops
`undefined`). -/
def findingToJson (f : Finding) : Json :=
  .obj
    ([ ("file", .str f.file), ("lineStart", .num (f.lineStart : Rat)),
       ("lineEnd", .num (f.lineEnd : Rat)), ("severity", .str f.severity),
       ("title", .str f.title), ("message", .str f.message),
       ("rationale", .str f.rationale) ] ++
      match f.patch with
      | some p => [("patch", Json.str p)]
      | none => [])

/-- Serialization of a summary record to JSON. -/
def summaryToJson (s : Summary) : Json :=
  .obj
    [ ("totalFindings", .num (s.totalFindings : Rat)),
      ("bySeverity", .obj (s.bySeverity.map fun kv => (kv.1, Json.num (kv.2 : Rat)))),
      ("durationMs", .num (s.durationMs : Rat)) ]

/-- An HTTP response produced by the handler. -/
structure HttpResponse where
  status : Nat
  body : Json

/-- One handler run: the response sent, and whether
`provider.reviewDiff` was invoked. -/
structure HandlerRun where
  response : HttpResponse
  providerCalled : Bool

/-- The `POST /v1/review/diff` handler from `index.ts`: validate the
request body; on failure answer 400 with an `error` field without
touching the provider; otherwise truncate the diff, call the provider,
re-validate its findings with `findingsSchema`, and answer 200 with the
findings and a freshly built summary (502 on provider error or invalid
findings). -/
def handleReviewDiff (requestId : String)
    (providerFn : String → List String → Except String Json)
    (durationMs : Nat) (maxDiffBytes : Nat) (body : Json) : HandlerRun :=
  match parseReviewRequest body with
  | none =>
    ⟨⟨400, .obj [("requestId", .str requestId), ("error", .str "Invalid request"),
        ("details", .null)]⟩, false⟩
  | some req =>
    let truncatedDiff := truncateByBytesStr req.diff maxDiffBytes
    match providerFn truncatedDiff req.files with
    | .error e =>
      ⟨⟨502, .obj [("requestId", .str requestId), ("error", .str "Failed to review diff"),
          ("message", .str e)]⟩, true⟩
    | .ok findingsVal =>
      match parseFindings findingsVal with
      | none =>
        ⟨⟨502, .obj [("requestId", .str requestId),
            ("error", .str "Invalid findings from provider")]⟩, true⟩
      | some findings =>
        ⟨⟨200, .obj [("requestId", .str requestId),
            ("findings", .arr (findings.map findingToJson)),
            ("summary", summaryToJson (buildSummary findings durationMs))]⟩, true⟩

/-- Whether a JSON response body carries an `error` field. -/
def hasErrorField (j : Json) : Bool :=
  match j with
  | .obj fields => (getField fields "error").isSome
  | _ => false

/-- A finding object carrying the seven required fields (no `patch`). -/
def mkFindingJson (file : String) (ls le : Rat)
    (sev title message rationale : String) : Json :=
  .obj
    [ ("file", .str file), ("lineStart", .num ls), ("lineEnd", .num le),
      ("severity", .str sev), ("title", .str title), ("message", .str message),
      ("rationale", .str rationale) ]

/-! # Claims -/

/-- C3: for every input string whose UTF-8 byte length is at most the
limit `n`, `truncateByBytes(input, n)` returns the input unchanged. -/
theorem truncateByBytes_short_unchanged (input : List Nat) (n : Nat)
    (h : (utf8Encode input).length ≤ n) :
    truncateByBytes input n = input := by
  simp [truncateByBytes, h]

/-- Witness for `truncateByBytes_short_unchanged`: `"aé"` (3 UTF-8
bytes) under limit 3 is returned unchanged. -/
theorem truncateByBytes_short_unchanged_witness :
    (utf8Encode [97, 233]).length ≤ 3 ∧ truncateByBytes [97, 233] 3 = [97, 233] :=
  ⟨by decide, truncateByBytes_short_unchanged [97, 233] 3 (by decide)⟩

/-- C10: in the pre-commit hook, a finding whose severity string is not
one of nit, suggestion, warning, critical makes `severityAtOrAbove`
return false against every threshold, so such a finding never flips the
hook's blocking decision. -/
theorem severityAtOrAbove_unknown (sev : String) (h : sev ∉ canonicalSeverities) :
    ∀ threshold : String,
      severityAtOrAbove sev threshold = false ∧
      ∀ severities : List String,
        hookShouldFail (sev :: severities) threshold = hookShouldFail severities threshold := by
  intro threshold
  have hnotin : sev ≠ "nit" ∧ sev ≠ "suggestion" ∧ sev ≠ "warning" ∧ sev ≠ "critical" := by
    simpa [canonicalSeverities] using h
  have hb1 : (sev == "nit") = false := by simp [hnotin.1]
  have hb2 : (sev == "suggestion") = false := by simp [hnotin.2.1]
  have hb3 : (sev == "warning") = false := by simp [hnotin.2.2.1]
  have hb4 : (sev == "critical") = false := by simp [hnotin.2.2.2]
  have hl : severityOrder.lookup sev = none := by
    simp [severityOrder, List.lookup, hb1, hb2, hb3, hb4]
  have hone : severityAtOrAbove sev threshold = false := by
    unfold severityAtOrAbove
    rw [hl]
  refine ⟨hone, fun severities => ?_⟩
  simp [hookShouldFail, hone]

/-- Witness for `severityAtOrAbove_unknown`: severity `"blocker"`
against threshold `"nit"`. -/
theorem severityAtOrAbove_unknown_witness :
    severityAtOrAbove "blocker" "nit" = false ∧
    hookShouldFail ["blocker"] "nit" = hookShouldFail [] "nit" :=
  ⟨(severityAtOrAbove_unknown "blocker" (by decide) "nit").1,
    (severityAtOrAbove_unknown "blocker" (by decide) "nit").2 []⟩

/-- C8 (code bug): `config.ts` builds the `config` object with exactly
four properties — `port`, `geminiApiKey`, `defaultMaxDiffBytes`,
`llmTimeoutMs` — and no debug flag, so the guard
`if (config.debugPrompts)` in `GeminiProvider.reviewDiff` reads an
absent property and is falsy under every environment: the system and
user prompts are never echoed to operator logs. -/
theorem debugPrompts_never_enabled
    (parseIntStr : String → Option Int) (env : String → Option String) :
    debugPromptsEnabled (configFromEnv parseIntStr env) = false := by
  simp [debugPromptsEnabled, configFromEnv, List.lookup, jsTruthy]

/-- C7: a request body that fails `reviewRequestSchema` validation is
answered with status 400 and a body carrying an `error` field, and the
provider is never invoked for that request. -/
theorem handler_invalid_request_400 (requestId : String)
    (providerFn : String → List String → Except String Json)
    (durationMs maxDiffBytes : Nat) (body : Json)
    (h : parseReviewRequest body = none) :
    (handleReviewDiff requestId providerFn durationMs maxDiffBytes body).response.status = 400 ∧
    hasErrorField
      (handleReviewDiff requestId providerFn durationMs maxDiffBytes body).response.body = true ∧
    (handleReviewDiff requestId providerFn durationMs maxDiffBytes body).providerCalled = false := by
  simp [handleReviewDiff, h, hasErrorField, getField, List.lookup]

/-- Witness for `handler_invalid_request_400`: a `null` request body
(in particular one missing `diff`). -/
theorem handler_invalid_request_400_witness :
    (handleReviewDiff "rid" (fun _ _ => .ok .null) 0 0 .null).response.status = 400 ∧
    hasErrorField (handleReviewDiff "rid" (fun _ _ => .ok .null) 0 0 .null).response.body = true ∧
    (handleReviewDiff "rid" (fun _ _ => .ok .null) 0 0 .null).providerCalled = false :=
  handler_invalid_request_400 "rid" (fun _ _ => .ok .null) 0 0 .null rfl

/-- Bumping a key's counter increments that key's count by one. -/
theorem countOf_incrKey_self (m : List (String × Nat)) (k : String) :
    countOf (incrKey m k) k = countOf m k + 1 := by
  induction m with
  | nil => simp [incrKey, countOf, List.lookup]
  | cons kv rest ih =>
    obtain ⟨k2, v⟩ := kv
    by_cases hk : k2 = k
    · subst hk
      simp [incrKey, countOf, List.lookup]
    · have hb : (k == k2) = false := by simp [Ne.symm hk]
      simp [incrKey, hk, countOf, List.lookup, hb]
      simpa [countOf] using ih

/-- Bumping one key's counter leaves every other key's count alone. -/
theorem countOf_incrKey_ne (m : List (String × Nat)) (k k2 : String) (h : k2 ≠ k) :
    countOf (incrKey m k) k2 = countOf m k2 := by
  induction m with
  | nil =>
    have hb : (k2 == k) = false := by simp [h]
    simp [incrKey, countOf, List.lookup, hb]
  | cons kv rest ih =>
    obtain ⟨k3, v⟩ := kv
    by_cases hk : k3 = k
    · subst hk
      have hb : (k2 == k3) = false := by simp [h]
      simp [incrKey, countOf, List.lookup, hb]
    · by_cases hb : k2 = k3
      · subst hb
        simp [incrKey, hk, countOf, List.lookup]
      · have hbb : (k2 == k3) = false := by simp [hb]
        simp [incrKey, hk, countOf, List.lookup, hbb]
        simpa [countOf] using ih

/-- Bumping a canonical severity raises the canonical sum by one. -/
theorem canonicalSum_incrKey (m : List (String × Nat)) (sev : String)
    (h : sev ∈ canonicalSeverities) :
    canonicalSum (incrKey m sev) = canonicalSum m + 1 := by
  simp only [canonicalSeverities, List.mem_cons, List.not_mem_nil, or_false] at h
  rcases h with h | h | h | h <;> subst h <;>
    (simp only [canonicalSum]
     rw [countOf_incrKey_self, countOf_incrKey_ne _ _ _ (by decide),
       countOf_incrKey_ne _ _ _ (by decide), countOf_incrKey_ne _ _ _ (by decide)]
     omega)

/-- Folding `incrKey` over canonical findings adds the list length to
the canonical sum. -/
theorem canonicalSum_foldl (findings : List Finding) (m : List (String × Nat))
    (h : ∀ f ∈ findings, f.severity ∈ canonicalSeverities) :
    canonicalSum (findings.foldl (fun acc f => incrKey acc f.severity) m) =
      canonicalSum m + findings.length := by
  induction findings generalizing m with
  | nil => simp
  | cons f rest ih =>
    simp only [List.foldl_cons, List.length_cons]
    rw [ih _ (fun g hg => h g (List.mem_cons_of_mem _ hg)),
      canonicalSum_incrKey m f.severity (h f (List.mem_cons_self _ _))]
    omega

/-- C5: `buildSummary(findings, d).totalFindings` equals the length of
the findings list, and when every finding's severity is canonical the
sum of the `bySeverity` counts over nit, suggestion, warning, critical
equals `totalFindings`. -/
theorem buildSummary_totals (findings : List Finding) (d : Nat) :
    (buildSummary findings d).totalFindings = findings.length ∧
    ((∀ f ∈ findings, f.severity ∈ canonicalSeverities) →
      canonicalSum (buildSummary findings d).bySeverity =
        (buildSummary findings d).totalFindings) := by
  refine ⟨rfl, fun h => ?_⟩
  have hinit :
      canonicalSum [("nit", 0), ("suggestion", 0), ("warning", 0), ("critical", 0)] = 0 := by
    decide
  simp only [buildSummary]
  rw [canonicalSum_foldl findings _ h, hinit]
  omega

/-- Witness for `buildSummary_totals`: one warning finding. -/
theorem buildSummary_totals_witness :
    (buildSummary [⟨"x", 1, 1, "warning", "t", "m", "r", none⟩] 5).totalFindings = 1 ∧
    canonicalSum (buildSummary [⟨"x", 1, 1, "warning", "t", "m", "r", none⟩] 5).bySeverity =
      (buildSummary [⟨"x", 1, 1, "warning", "t", "m", "r", none⟩] 5).totalFindings :=
  ⟨(buildSummary_totals [⟨"x", 1, 1, "warning", "t", "m", "r", none⟩] 5).1,
    (buildSummary_totals [⟨"x", 1, 1, "warning", "t", "m", "r", none⟩] 5).2 (by decide)⟩

/-- A finding object accepted by `findingSchema` has
`lineStart ≤ lineEnd` (the zod `refine`). -/
theorem parseFinding_lineStart_le_lineEnd (fields : List (String × Json)) (f : Finding)
    (hp : parseFinding (.obj fields) = some f) (ls le : Rat)
    (hls : getField fields "lineStart" = some (.num ls))
    (hle : getField fields "lineEnd" = some (.num le)) :
    ls ≤ le := by
  simp only [parseFinding] at hp
  split at hp
  · rename_i h1 h2 h3 h4 h5 h6 h7 h8
    rw [hls] at h2
    rw [hle] at h3
    injection h2 with h2
    injection h2 with h2
    injection h3 with h3
    injection h3 with h3
    subst h2
    subst h3
    split at hp
    · rename_i hc
      exact hc.2.2.2.2.2.2.2.2.2
    · cases hp
  all_goals cases hp

/-- C6: `findingSchema` rejects every finding object with
`lineEnd < lineStart`, and accepts an otherwise-valid finding whose
`lineEnd` equals its `lineStart`. -/
theorem findingSchema_line_range :
    (∀ (fields : List (String × Json)) (ls le : Rat),
      getField fields "lineStart" = some (.num ls) →
      getField fields "lineEnd" = some (.num le) →
      le < ls →
      parseFinding (.obj fields) = none) ∧
    (∀ (file sev title message rationale : String) (n : Rat),
      1 ≤ file.length → sev ∈ canonicalSeverities → 1 ≤ title.length →
      1 ≤ message.length → 1 ≤ rationale.length → n.den = 1 → 1 ≤ n →
      (parseFinding (mkFindingJson file n n sev title message rationale)).isSome = true) := by
  constructor
  · intro fields ls le hls hle hlt
    cases hres : parseFinding (.obj fields) with
    | none => rfl
    | some f =>
      exact absurd (parseFinding_lineStart_le_lineEnd fields f hres ls le hls hle)
        (not_le.mpr hlt)
  · intro file sev title message rationale n hf hsev ht hm hr hden hn
    simp [mkFindingJson, parseFinding, getField, List.lookup, parseOptStr,
      hf, hsev, ht, hm, hr, hden, hn]

/-- Witness for `findingSchema_line_range`: an object with
`lineStart = 2, lineEnd = 1` is rejected; a fully populated finding
with `lineStart = lineEnd = 1` is accepted. -/
theorem findingSchema_line_range_witness :
    parseFinding (.obj [("lineStart", .num 2), ("lineEnd", .num 1)]) = none ∧
    (parseFinding (mkFindingJson "x" 1 1 "warning" "t" "m" "r")).isSome = true :=
  ⟨findingSchema_line_range.1 [("lineStart", .num 2), ("lineEnd", .num 1)] 2 1 rfl rfl
      (by norm_num),
    findingSchema_line_range.2 "x" "warning" "t" "m" "r" 1 (by decide) (by decide)
      (by decide) (by decide) (by decide) rfl (by norm_num)⟩

/-- C1: when the first model response fails parse-or-schema validation
and the repair response also fails, `reviewDiff` fails permanently
(throws) after exactly two model calls; and no run of `reviewDiff`
ever sends more than two prompts. -/
theorem reviewDiff_at_most_two_calls
    (jsonParse : String → Option Json) (gen : Nat → String → Except String String)
    (diff : String) (files : List String) (t0 t1 : String)
    (h0 : gen 0 (buildUserPrompt diff files) = .ok t0)
    (hp0 : tryParse jsonParse t0 = none)
    (h1 : gen 1 (buildRepairPrompt t0) = .ok t1)
    (hp1 : tryParse jsonParse t1 = none) :
    (reviewDiff jsonParse gen diff files).result =
      .error "Model returned invalid JSON after repair attempt" ∧
    (reviewDiff jsonParse gen diff files).promptsSent.length = 2 ∧
    ∀ gen2 : Nat → String → Except String String,
      (reviewDiff jsonParse gen2 diff files).promptsSent.length ≤ 2 := by
  refine ⟨?_, ?_, ?_⟩
  · simp [reviewDiff, h0, hp0, h1, hp1]
  · simp [reviewDiff, h0, hp0, h1, hp1]
  · intro gen2
    simp only [reviewDiff]
    split
    · simp
    · split
      · simp
      · split
        · simp
        · split <;> simp

/-- Witness for `reviewDiff_at_most_two_calls`: a parser that always
fails and a model that always answers `"x"`. -/
theorem reviewDiff_at_most_two_calls_witness :
    (reviewDiff (fun _ => none) (fun _ _ => .ok "x") "d" ["f"]).result =
      .error "Model returned invalid JSON after repair attempt" ∧
    (reviewDiff (fun _ => none) (fun _ _ => .ok "x") "d" ["f"]).promptsSent.length = 2 ∧
    ∀ gen2 : Nat → String → Except String String,
      (reviewDiff (fun _ => none) gen2 "d" ["f"]).promptsSent.length ≤ 2 :=
  reviewDiff_at_most_two_calls (fun _ => none) (fun _ _ => .ok "x") "d" ["f"] "x" "x"
    rfl rfl rfl rfl

/-- C4: when the first response fails validation, the second (and
last) prompt sent is the repair prompt, and it embeds the first raw
response text verbatim as a substring. -/
theorem reviewDiff_repair_embeds_first_response
    (jsonParse : String → Option Json) (gen : Nat → String → Except String String)
    (diff : String) (files : List String) (t0 : String)
    (h0 : gen 0 (buildUserPrompt diff files) = .ok t0)
    (hp0 : tryParse jsonParse t0 = none) :
    (reviewDiff jsonParse gen diff files).promptsSent =
      [buildUserPrompt diff files, buildRepairPrompt t0] ∧
    ∃ before after : String, buildRepairPrompt t0 = before ++ t0 ++ after := by
  constructor
  · simp only [reviewDiff, h0, hp0]
    cases hgen : gen 1 (buildRepairPrompt t0) with
    | error e => simp
    | ok t2 => cases htp2 : tryParse jsonParse t2 <;> simp [htp2]
  · refine ⟨"The previous response was invalid." ++ "\n\n" ++
      "Return ONLY valid JSON matching the required schema. No markdown, no commentary." ++
      "\n\n" ++ "Here is the invalid output:" ++ "\n\n", "", ?_⟩
    simp [buildRepairPrompt, joinWith, String.append_empty, ← String.append_assoc]

/-- Witness for `reviewDiff_repair_embeds_first_response`: first
response `"BAD"` under an always-failing parser. -/
theorem reviewDiff_repair_embeds_first_response_witness :
    (reviewDiff (fun _ => none) (fun _ _ => .ok "BAD") "d" ["f"]).promptsSent =
      [buildUserPrompt "d" ["f"], buildRepairPrompt "BAD"] ∧
    ∃ before after : String, buildRepairPrompt "BAD" = before ++ "BAD" ++ after :=
  reviewDiff_repair_embeds_first_response (fun _ => none) (fun _ _ => .ok "BAD")
    "d" ["f"] "BAD" rfl rfl

/-- C9: `tryParse` validates against the full `reviewResponseSchema`:
a first response whose findings array is valid but whose summary is
missing or invalid fails validation — even though the summary is
discarded on success — and so triggers the repair call. -/
theorem tryParse_requires_valid_summary
    (jsonParse : String → Option Json) (gen : Nat → String → Except String String)
    (diff : String) (files : List String) (t0 : String)
    (fields : List (String × Json)) (fv : Json)
    (h0 : gen 0 (buildUserPrompt diff files) = .ok t0)
    (hj : jsonParse t0.trim = some (.obj fields))
    (hfv : getField fields "findings" = some fv)
    (hfind : (parseFindings fv).isSome = true)
    (hsum : ∀ sv, getField fields "summary" = some sv → summarySchemaCheck sv = false) :
    tryParse jsonParse t0 = none ∧
    (reviewDiff jsonParse gen diff files).promptsSent =
      [buildUserPrompt diff files, buildRepairPrompt t0] := by
  have htp : tryParse jsonParse t0 = none := by
    simp only [tryParse, hj, hfv]
    cases hs : getField fields "summary" with
    | none => rfl
    | some sv =>
      obtain ⟨l, hl⟩ := Option.isSome_iff_exists.mp hfind
      simp [hl, hsum sv hs]
  refine ⟨htp, ?_⟩
  simp only [reviewDiff, h0, htp]
  cases hgen : gen 1 (buildRepairPrompt t0) with
  | error e => simp
  | ok t2 => cases htp2 : tryParse jsonParse t2 <;> simp [htp2]

/-- Witness for `tryParse_requires_valid_summary`: a response parsing
to `\x7b"findings": []\x7d` with no summary at all. -/
theorem tryParse_requires_valid_summary_witness :
    tryParse (fun _ => some (.obj [("findings", .arr [])])) "resp" = none ∧
    (reviewDiff (fun _ => some (.obj [("findings", .arr [])]))
        (fun _ _ => .ok "resp") "d" ["f"]).promptsSent =
      [buildUserPrompt "d" ["f"], buildRepairPrompt "resp"] :=
  tryParse_requires_valid_summary (fun _ => some (.obj [("findings", .arr [])]))
    (fun _ _ => .ok "resp") "d" ["f"] "resp" [("findings", .arr [])] (.arr [])
    rfl rfl rfl rfl (fun _ h => Option.noConfusion h)

/-! ### UTF-8 round-trip lemmas for the truncator -/

theorem utf8Encode_cons (c : Nat) (s : List Nat) :
    utf8Encode (c :: s) = utf8EncodeChar c ++ utf8Encode s := by
  simp [utf8Encode]

theorem utf8Encode_append (s t : List Nat) :
    utf8Encode (s ++ t) = utf8Encode s ++ utf8Encode t := by
  simp [utf8Encode]

/-- Decoding an ASCII scalar's encoding recovers it. -/
theorem utf8DecodeReplace_enc1 (c : Nat) (bs : List Nat) (h : c < 0x80) :
    utf8DecodeReplace (utf8EncodeChar c ++ bs) = c :: utf8DecodeReplace bs := by
  have e : utf8EncodeChar c = [c] := by
    unfold utf8EncodeChar
    rw [if_pos h]
  rw [e]
  simp only [List.singleton_append]
  conv_lhs => unfold utf8DecodeReplace
  simp [h]

/-- Decoding a two-byte scalar's encoding recovers it. -/
theorem utf8DecodeReplace_enc2 (c : Nat) (bs : List Nat) (h1 : 0x80 ≤ c) (h2 : c < 0x800) :
    utf8DecodeReplace (utf8EncodeChar c ++ bs) = c :: utf8DecodeReplace bs := by
  have e : utf8EncodeChar c = [0xC0 + c / 0x40, 0x80 + c % 0x40] := by
    unfold utf8EncodeChar
    rw [if_neg (by omega), if_pos h2]
  have hA : ¬ (0xC0 + c / 0x40 < 0x80) := by omega
  have hB : 0xC2 ≤ 0xC0 + c / 0x40 ∧ 0xC0 + c / 0x40 ≤ 0xDF := by omega
  have hC : cont (0x80 + c % 0x40) = true := by
    simp only [cont, decide_eq_true_eq]
    omega
  rw [e]
  simp only [List.cons_append, List.nil_append]
  conv_lhs => unfold utf8DecodeReplace
  simp only [if_neg hA, if_pos hB, hC, if_true]
  rw [show (0xC0 + c / 0x40 - 0xC0) * 0x40 + (0x80 + c % 0x40 - 0x80) = c from by omega]

/-- Valid first continuation byte produced by a three-byte encoding. -/
theorem cont3First_enc (c : Nat) (h1 : 0x800 ≤ c) (h2 : c < 0x10000)
    (hs : ¬ (0xD800 ≤ c ∧ c < 0xE000)) :
    cont3First (0xE0 + c / 0x1000) (0x80 + c / 0x40 % 0x40) = true := by
  unfold cont3First
  by_cases hE : 0xE0 + c / 0x1000 = 0xE0
  · rw [if_pos hE]
    simp only [decide_eq_true_eq]
    omega
  · rw [if_neg hE]
    by_cases hD : 0xE0 + c / 0x1000 = 0xED
    · rw [if_pos hD]
      simp only [decide_eq_true_eq]
      omega
    · rw [if_neg hD]
      simp only [cont, decide_eq_true_eq]
      omega

/-- Decoding a three-byte scalar's encoding recovers it. -/
theorem utf8DecodeReplace_enc3 (c : Nat) (bs : List Nat) (h1 : 0x800 ≤ c) (h2 : c < 0x10000)
    (hs : ¬ (0xD800 ≤ c ∧ c < 0xE000)) :
    utf8DecodeReplace (utf8EncodeChar c ++ bs) = c :: utf8DecodeReplace bs := by
  have e : utf8EncodeChar c =
      [0xE0 + c / 0x1000, 0x80 + c / 0x40 % 0x40, 0x80 + c % 0x40] := by
    unfold utf8EncodeChar
    rw [if_neg (by omega), if_neg (by omega), if_pos h2]
  have hA : ¬ (0xE0 + c / 0x1000 < 0x80) := by omega
  have hB : ¬ (0xC2 ≤ 0xE0 + c / 0x1000 ∧ 0xE0 + c / 0x1000 ≤ 0xDF) := by omega
  have hC : 0xE0 ≤ 0xE0 + c / 0x1000 ∧ 0xE0 + c / 0x1000 ≤ 0xEF := by omega
  have hD := cont3First_enc c h1 h2 hs
  have hE : cont (0x80 + c % 0x40) = true := by
    simp only [cont, decide_eq_true_eq]
    omega
  rw [e]
  simp only [List.cons_append, List.nil_append]
  conv_lhs => unfold utf8DecodeReplace
  simp only [if_neg hA, if_neg hB, if_pos hC, hD, hE, if_true]
  rw [show (0xE0 + c / 0x1000 - 0xE0) * 0x1000 + (0x80 + c / 0x40 % 0x40 - 0x80) * 0x40 +
    (0x80 + c % 0x40 - 0x80) = c from by omega]

/-- Valid first continuation byte produced by a four-byte encoding. -/
theorem cont4First_enc (c : Nat) (h1 : 0x10000 ≤ c) (h2 : c < 0x110000) :
    cont4First (0xF0 + c / 0x40000) (0x80 + c / 0x1000 % 0x40) = true := by
  unfold cont4First
  by_cases hF : 0xF0 + c / 0x40000 = 0xF0
  · rw [if_pos hF]
    simp only [decide_eq_true_eq]
    omega
  · rw [if_neg hF]
    by_cases hG : 0xF0 + c / 0x40000 = 0xF4
    · rw [if_pos hG]
      simp only [decide_eq_true_eq]
      omega
    · rw [if_neg hG]
      simp only [cont, decide_eq_true_eq]
      omega

/-- Decoding a four-byte scalar's encoding recovers it. -/
theorem utf8DecodeReplace_enc4 (c : Nat) (bs : List Nat) (h1 : 0x10000 ≤ c)
    (h2 : c < 0x110000) :
    utf8DecodeReplace (utf8EncodeChar c ++ bs) = c :: utf8DecodeReplace bs := by
  have e : utf8EncodeChar c =
      [0xF0 + c / 0x40000, 0x80 + c / 0x1000 % 0x40, 0x80 + c / 0x40 % 0x40,
        0x80 + c % 0x40] := by
    unfold utf8EncodeChar
    rw [if_neg (by omega), if_neg (by omega), if_neg (by omega)]
  have hA : ¬ (0xF0 + c / 0x40000 < 0x80) := by omega
  have hB : ¬ (0xC2 ≤ 0xF0 + c / 0x40000 ∧ 0xF0 + c / 0x40000 ≤ 0xDF) := by omega
  have hC : ¬ (0xE0 ≤ 0xF0 + c / 0x40000 ∧ 0xF0 + c / 0x40000 ≤ 0xEF) := by omega
  have hD : 0xF0 ≤ 0xF0 + c / 0x40000 ∧ 0xF0 + c / 0x40000 ≤ 0xF4 := by omega
  have hE := cont4First_enc c h1 h2
  have hF : cont (0x80 + c / 0x40 % 0x40) = true := by
    simp only [cont, decide_eq_true_eq]
    omega
  have hG : cont (0x80 + c % 0x40) = true := by
    simp only [cont, decide_eq_true_eq]
    omega
  rw [e]
  simp only [List.cons_append, List.nil_append]
  conv_lhs => unfold utf8DecodeReplace
  simp only [if_neg hA, if_neg hB, if_neg hC, if_pos hD, hE, hF, hG, if_true]
  rw [show (0xF0 + c / 0x40000 - 0xF0) * 0x40000 + (0x80 + c / 0x1000 % 0x40 - 0x80) * 0x1000 +
    (0x80 + c / 0x40 % 0x40 - 0x80) * 0x40 + (0x80 + c % 0x40 - 0x80) = c from by omega]

/-- Decoding any valid scalar's encoding recovers it. -/
theorem utf8DecodeReplace_encChar (c : Nat) (bs : List Nat) (hv : ValidScalar c) :
    utf8DecodeReplace (utf8EncodeChar c ++ bs) = c :: utf8DecodeReplace bs := by
  unfold ValidScalar at hv
  rcases Nat.lt_or_ge c 0x80 with h | h
  · exact utf8DecodeReplace_enc1 c bs h
  rcases Nat.lt_or_ge c 0x800 with h2 | h2
  · exact utf8DecodeReplace_enc2 c bs h h2
  rcases Nat.lt_or_ge c 0x10000 with h3 | h3
  · exact utf8DecodeReplace_enc3 c bs h2 h3 (by omega)
  · exact utf8DecodeReplace_enc4 c bs h3 (by omega)

/-- Decoding a valid encoding followed by a tail decodes the tail
independently. -/
theorem utf8DecodeReplace_encode_append (s bs : List Nat)
    (hv : ∀ c ∈ s, ValidScalar c) :
    utf8DecodeReplace (utf8Encode s ++ bs) = s ++ utf8DecodeReplace bs := by
  induction s with
  | nil => simp [utf8Encode]
  | cons c rest ih =>
    rw [utf8Encode_cons, List.append_assoc,
      utf8DecodeReplace_encChar c _ (hv c (List.mem_cons_self c rest)),
      ih (fun x hx => hv x (List.mem_cons_of_mem _ hx))]
    simp

/-- A lone two-byte lead decodes to one replacement character. -/
theorem decode_lead2_nil (b : Nat) (h : 0xC2 ≤ b ∧ b ≤ 0xDF) :
    utf8DecodeReplace [b] = [0xFFFD] := by
  conv_lhs => unfold utf8DecodeReplace
  simp [if_neg (show ¬ b < 0x80 by omega), if_pos h]

/-- A lone three-byte lead decodes to one replacement character. -/
theorem decode_lead3_nil (b : Nat) (h : 0xE0 ≤ b ∧ b ≤ 0xEF) :
    utf8DecodeReplace [b] = [0xFFFD] := by
  conv_lhs => unfold utf8DecodeReplace
  simp [if_neg (show ¬ b < 0x80 by omega),
    if_neg (show ¬ (0xC2 ≤ b ∧ b ≤ 0xDF) by omega), if_pos h]

/-- A three-byte lead with one valid continuation decodes to one
replacement character. -/
theorem decode_lead3_one (b c1 : Nat) (h : 0xE0 ≤ b ∧ b ≤ 0xEF)
    (hc : cont3First b c1 = true) :
    utf8DecodeReplace [b, c1] = [0xFFFD] := by
  conv_lhs => unfold utf8DecodeReplace
  simp [if_neg (show ¬ b < 0x80 by omega),
    if_neg (show ¬ (0xC2 ≤ b ∧ b ≤ 0xDF) by omega), if_pos h, hc]

/-- A lone four-byte lead decodes to one replacement character. -/
theorem decode_lead4_nil (b : Nat) (h : 0xF0 ≤ b ∧ b ≤ 0xF4) :
    utf8DecodeReplace [b] = [0xFFFD] := by
  conv_lhs => unfold utf8DecodeReplace
  simp [if_neg (show ¬ b < 0x80 by omega),
    if_neg (show ¬ (0xC2 ≤ b ∧ b ≤ 0xDF) by omega),
    if_neg (show ¬ (0xE0 ≤ b ∧ b ≤ 0xEF) by omega), if_pos h]

/-- A four-byte lead with one valid continuation decodes to one
replacement character. -/
theorem decode_lead4_one (b c1 : Nat) (h : 0xF0 ≤ b ∧ b ≤ 0xF4)
    (hc : cont4First b c1 = true) :
    utf8DecodeReplace [b, c1] = [0xFFFD] := by
  conv_lhs => unfold utf8DecodeReplace
  simp [if_neg (show ¬ b < 0x80 by omega),
    if_neg (show ¬ (0xC2 ≤ b ∧ b ≤ 0xDF) by omega),
    if_neg (show ¬ (0xE0 ≤ b ∧ b ≤ 0xEF) by omega), if_pos h, hc]

/-- A four-byte lead with two valid continuations decodes to one
replacement character. -/
theorem decode_lead4_two (b c1 c2 : Nat) (h : 0xF0 ≤ b ∧ b ≤ 0xF4)
    (hc : cont4First b c1 = true) (hc2 : cont c2 = true) :
    utf8DecodeReplace [b, c1, c2] = [0xFFFD] := by
  conv_lhs => unfold utf8DecodeReplace
  simp [if_neg (show ¬ b < 0x80 by omega),
    if_neg (show ¬ (0xC2 ≤ b ∧ b ≤ 0xDF) by omega),
    if_neg (show ¬ (0xE0 ≤ b ∧ b ≤ 0xEF) by omega), if_pos h, hc, hc2]

/-- A non-empty strict prefix of one scalar's encoding decodes to one
replacement character (the truncated-tail behaviour of Node's
decoder). -/
theorem utf8DecodeReplace_partial (c k : Nat) (hv : ValidScalar c) (hk1 : 1 ≤ k)
    (hk : k < (utf8EncodeChar c).length) :
    utf8DecodeReplace ((utf8EncodeChar c).take k) = [0xFFFD] := by
  unfold ValidScalar at hv
  rcases Nat.lt_or_ge c 0x80 with h | h
  · have e : utf8EncodeChar c = [c] := by
      unfold utf8EncodeChar
      rw [if_pos h]
    rw [e] at hk
    simp at hk
    omega
  rcases Nat.lt_or_ge c 0x800 with h2 | h2
  · have e : utf8EncodeChar c = [0xC0 + c / 0x40, 0x80 + c % 0x40] := by
      unfold utf8EncodeChar
      rw [if_neg (by omega), if_pos h2]
    rw [e] at hk ⊢
    have hk' : k = 1 := by
      simp at hk
      omega
    subst hk'
    exact decode_lead2_nil _ (by omega)
  rcases Nat.lt_or_ge c 0x10000 with h3 | h3
  · have e : utf8EncodeChar c =
        [0xE0 + c / 0x1000, 0x80 + c / 0x40 % 0x40, 0x80 + c % 0x40] := by
      unfold utf8EncodeChar
      rw [if_neg (by omega), if_neg (by omega), if_pos h3]
    rw [e] at hk ⊢
    have hk' : k = 1 ∨ k = 2 := by
      simp at hk
      omega
    rcases hk' with hk' | hk' <;> subst hk'
    · exact decode_lead3_nil _ (by omega)
    · exact decode_lead3_one _ _ (by omega) (cont3First_enc c h2 h3 (by omega))
  · have h4 : c < 0x110000 := by omega
    have e : utf8EncodeChar c =
        [0xF0 + c / 0x40000, 0x80 + c / 0x1000 % 0x40, 0x80 + c / 0x40 % 0x40,
          0x80 + c % 0x40] := by
      unfold utf8EncodeChar
      rw [if_neg (by omega), if_neg (by omega), if_neg (by omega)]
    rw [e] at hk ⊢
    have hk' : k = 1 ∨ k = 2 ∨ k = 3 := by
      simp at hk
      omega
    rcases hk' with hk' | hk' | hk' <;> subst hk'
    · exact decode_lead4_nil _ (by omega)
    · exact decode_lead4_one _ _ (by omega) (cont4First_enc c h3 h4)
    · exact decode_lead4_two _ _ _ (by omega) (cont4First_enc c h3 h4)
        (by simp only [cont, decide_eq_true_eq]; omega)

/-- The first `n` bytes of a valid encoding split as the encoding of a
scalar prefix plus a (possibly empty) strict prefix of one more
scalar's encoding. -/
theorem utf8Encode_take_split (s : List Nat) (n : Nat)
    (hv : ∀ c ∈ s, ValidScalar c) (h : n < (utf8Encode s).length) :
    ∃ (s1 : List Nat) (c : Nat) (k : Nat),
      (∀ x ∈ s1, ValidScalar x) ∧ ValidScalar c ∧
      (utf8Encode s).take n = utf8Encode s1 ++ (utf8EncodeChar c).take k ∧
      k < (utf8EncodeChar c).length ∧
      n = (utf8Encode s1).length + k := by
  induction s generalizing n with
  | nil => simp [utf8Encode] at h
  | cons c rest ih =>
    have hvc : ValidScalar c := hv c (List.mem_cons_self c rest)
    have hvr : ∀ x ∈ rest, ValidScalar x := fun x hx => hv x (List.mem_cons_of_mem _ hx)
    rcases Nat.lt_or_ge n (utf8EncodeChar c).length with hn | hn
    · refine ⟨[], c, n, by simp, hvc, ?_, hn, by simp [utf8Encode]⟩
      rw [utf8Encode_cons, List.take_append_eq_append_take,
        show n - (utf8EncodeChar c).length = 0 by omega]
      simp [utf8Encode]
    · have hlen : n - (utf8EncodeChar c).length < (utf8Encode rest).length := by
        rw [utf8Encode_cons, List.length_append] at h
        omega
      obtain ⟨s1, c2, k, hv1, hvc2, heq, hk, hlen2⟩ :=
        ih (n - (utf8EncodeChar c).length) hvr hlen
      refine ⟨c :: s1, c2, k, ?_, hvc2, ?_, hk, ?_⟩
      · intro x hx
        rcases List.mem_cons.mp hx with rfl | hx
        · exact hvc
        · exact hv1 x hx
      · rw [utf8Encode_cons, List.take_append_eq_append_take,
          List.take_of_length_le hn, heq, utf8Encode_cons, List.append_assoc]
      · rw [utf8Encode_cons, List.length_append]
        omega

/-- C2 counterexample: `"aé"` is 3 UTF-8 bytes; truncating it to 2
bytes cuts `é` in half, the decoder replaces the dangling lead byte
with U+FFFD (3 bytes), and the result is 4 bytes — more than the
limit. -/
theorem truncateByBytes_can_exceed_limit :
    2 < (utf8Encode [97, 233]).length ∧
    ¬ ((utf8Encode (truncateByBytes [97, 233] 2)).length ≤ 2) := by
  decide

/-- C2 (amended): for every input of valid scalars whose UTF-8 byte
length exceeds the limit `n`, the UTF-8 byte length of
`truncateByBytes(input, n)` is at most `n + 2` (the dangling partial
codepoint — at least 1 byte dropped — is replaced by one 3-byte
U+FFFD). -/
theorem truncateByBytes_le_limit_add_two (input : List Nat) (n : Nat)
    (hv : ∀ c ∈ input, ValidScalar c) (h : n < (utf8Encode input).length) :
    (utf8Encode (truncateByBytes input n)).length ≤ n + 2 := by
  obtain ⟨s1, c, k, hv1, hvc, heq, hk, hn⟩ := utf8Encode_take_split input n hv h
  unfold truncateByBytes
  rw [if_neg (by omega), heq]
  rcases Nat.eq_zero_or_pos k with hk0 | hk1
  · subst hk0
    simp only [List.take_zero, List.append_nil]
    have hd := utf8DecodeReplace_encode_append s1 [] hv1
    simp only [List.append_nil, show utf8DecodeReplace [] = [] from rfl] at hd
    rw [hd]
    omega
  · rw [utf8DecodeReplace_encode_append s1 _ hv1,
      utf8DecodeReplace_partial c k hvc hk1 hk, utf8Encode_append,
      List.length_append]
    have h3 : (utf8Encode [0xFFFD]).length = 3 := rfl
    rw [h3]
    omega

/-- Witness for `truncateByBytes_le_limit_add_two`: `"aé"` truncated
to 2 bytes yields at most 4 bytes. -/
theorem truncateByBytes_le_limit_add_two_witness :
    (utf8Encode (truncateByBytes [97, 233] 2)).length ≤ 2 + 2 :=
  truncateByBytes_le_limit_add_two [97, 233] 2 (by decide) (by decide)

end SafeCommit
